import Mathlib

/-!
Verification of the beer-tracker core of `frontroomsbot`
(`src/frontroomsbot/cogs/beer_tracker.py`).

The embedding below translates the data model and the five slash-command
handlers (`log_beer`, `my_beers`, `beer_delete`, `beer_stats`,
`beer_leaderboard`, `beer_last`) into pure Lean functions.

Modelling conventions:
* Timestamps are instants, represented as `Int` seconds.  The source stores
  timestamps and compares them after `ts_to_prague_time`; converting an
  aware datetime to another timezone does not change the instant it denotes,
  and Python compares aware datetimes by instant, so the conversion is the
  identity in the model.  The leaderboard's `now.replace(hour=0, ...)`
  (midnight of the current display-timezone day) is modelled with instants
  measured in display-timezone-local seconds, so midnight is
  `now - now % 86400`.
* A MongoDB collection is a `List UserRec` scanned in order: `find_one`
  is `List.find?`, `replace_one`/`update_one` replace the first matching
  document, and a field that may be absent in a legacy document
  (`type` on events, `total_beers` / `total_ciders` on records) is an
  `Option`; `dict.get(k, d)` is `Option.getD`, `dict[k]` on a possibly
  absent field is `Option` pattern matching with `none` meaning `KeyError`.
* `uuid.UUID(s)` raising `ValueError` is abstracted as a validity predicate
  `validUUID : String → Bool` passed to `beer_delete`; the handler depends
  on the Python call only through raise / no-raise.
* Python's `sorted(key=k, reverse=True)` and `list.sort(key=k, reverse=True)`
  are stable descending sorts: elements with equal keys keep their original
  relative order.  `List.insertionSort r` with `r a b := k b ≤ k a` computes
  exactly this: it inserts each element before the first later element with a
  strictly smaller key, hence after all earlier elements with an equal key.
-/

inductive DrinkType
  | beer
  | cider
deriving DecidableEq

/-- One element of a record's `beers` array: `{"id": ..., "timestamp": ...,
"type": ...}`; `type` is `none` for legacy entries written before the field
existed. -/
structure DrinkEvent where
  id : String
  timestamp : Int
  type : Option DrinkType
deriving DecidableEq

/-- One document of the `beer_tracker` collection.  `total_beers` and
`total_ciders` are `Option` because legacy documents may lack them (the
source reads them with `.get(..., 0)` in some places and with `[...]` in
others). -/
structure UserRec where
  user_id : Nat
  username : String
  beers : List DrinkEvent
  total_beers : Option Nat
  total_ciders : Option Nat
deriving DecidableEq

/-- Translation of `b.get("type", "beer") == "beer"` (line 121 / 217 of the source):
a missing legacy `type` counts as beer. -/
def effIsBeer (e : DrinkEvent) : Bool :=
  e.type.getD .beer == .beer

/-- Translation of `b.get("type") == "cider"` (line 124 / 218 of the source). -/
def isCider (e : DrinkEvent) : Bool :=
  e.type == some .cider

/-- Translation of `len([b for b in beers if b.get("type", "beer") == "beer"])` (line 217). -/
def countBeer (es : List DrinkEvent) : Nat :=
  (es.filter effIsBeer).length

/-- Translation of `len([b for b in beers if b.get("type") == "cider"])` (line 218). -/
def countCider (es : List DrinkEvent) : Nat :=
  (es.filter isCider).length

/-- Translation of `db.beer_tracker.find_one({"user_id": uid})`. -/
def findUser (store : List UserRec) (uid : Nat) : Option UserRec :=
  store.find? (fun r => r.user_id == uid)

/-- Translation of `db.beer_tracker.replace_one({"user_id": uid}, doc, upsert=True)`:
replace the first document with this key, or append when there is none. -/
def replaceOne (store : List UserRec) (uid : Nat) (doc : UserRec) : List UserRec :=
  match store with
  | [] => [doc]
  | r :: rs => if r.user_id == uid then doc :: rs else r :: replaceOne rs uid doc

/-- In-memory mutation of the loaded (or lazily created) record performed by
`log_beer` (lines 60-72): append the new event, bump the matching counter
with `.get(..., 0) + 1`, refresh the username. -/
def logDoc (user_data : UserRec) (uname : String) (dt : DrinkType) (now : Int)
    (newId : String) : UserRec :=
  let user_data :=
    { user_data with beers := user_data.beers ++ [DrinkEvent.mk newId now (some dt)] }
  let user_data :=
    match dt with
    | .beer => { user_data with total_beers := some (user_data.total_beers.getD 0 + 1) }
    | .cider => { user_data with total_ciders := some (user_data.total_ciders.getD 0 + 1) }
  { user_data with username := uname }

/-- The `/beer` command (`log_beer`, lines 41-91): get-or-create the record, mutate it in
memory (`logDoc`), persist it with `replace_one(..., upsert=True)`. -/
def log_beer (store : List UserRec) (uid : Nat) (uname : String) (dt : DrinkType)
    (now : Int) (newId : String) : List UserRec :=
  replaceOne store uid
    (logDoc ((findUser store uid).getD (UserRec.mk uid uname [] (some 0) (some 0)))
      uname dt now newId)

/-- Store accesses performed by a handler, in order. -/
inductive StoreOp
  | findOne
  | updateOne
deriving DecidableEq

/-- Outcome of `/beer_delete`. -/
inductive DeleteRes
  | invalidUUID
  | notFound
  | forbidden
  | deleted (e : DrinkEvent)
deriving DecidableEq

/-- Translation of `find_one({"beers.id": u})`: matches a document some of whose `beers`
elements has this id. -/
def hasBeer (u : String) (r : UserRec) : Bool :=
  r.beers.any (fun b => b.id == u)

/-- Translation of `update_one({"user_id": uid}, {"$set": {...}})`: rewrite the listed
fields of the first document with this key. -/
def updateBeers (store : List UserRec) (uid : Nat) (nb : List DrinkEvent)
    (tb tc : Nat) : List UserRec :=
  match store with
  | [] => []
  | r :: rs =>
    if r.user_id == uid then
      { r with beers := nb, total_beers := some tb, total_ciders := some tc } :: rs
    else
      r :: updateBeers rs uid nb tb tc

/-- The `/beer_delete` command (`beer_delete`, lines 177-243).  Returns the outcome, the
collection afterwards, and the trace of store accesses performed. -/
def beer_delete (validUUID : String → Bool) (caller : Nat) (beer_uuid : String)
    (store : List UserRec) : DeleteRes × List UserRec × List StoreOp :=
  if validUUID beer_uuid then
    match store.find? (hasBeer beer_uuid) with
    | none => (.notFound, store, [.findOne])
    | some user_data =>
      if user_data.user_id ≠ caller then
        (.forbidden, store, [.findOne])
      else
        let updated_beers := user_data.beers.filter (fun b => b.id != beer_uuid)
        match user_data.beers.find? (fun b => b.id == beer_uuid) with
        | none => (.notFound, store, [.findOne])
        | some deleted_beer =>
          (.deleted deleted_beer,
            updateBeers store user_data.user_id updated_beers
              (countBeer updated_beers) (countCider updated_beers),
            [.findOne, .updateOne])
  else
    (.invalidUUID, store, [])

/-- C8: for every input string rejected by the UUID parser, `beer_delete`
returns the validation error (distinct from NotFound), leaves the collection
untouched, and performs no store access at all (empty access trace). -/
theorem c8_invalid_uuid (validUUID : String → Bool) (caller : Nat)
    (u : String) (store : List UserRec) (h : validUUID u = false) :
    beer_delete validUUID caller u store = (.invalidUUID, store, []) ∧
      DeleteRes.invalidUUID ≠ DeleteRes.notFound := by
  refine ⟨?_, by simp⟩
  simp [beer_delete, h]

theorem c8_invalid_uuid_witness :
    (fun s => s == "0f0f") ("zz") = false ∧
      beer_delete (fun s => s == "0f0f") 1 ("zz")
          [⟨1, "alice", [⟨"0f0f", 5, some .beer⟩], some 1, some 0⟩] =
        (.invalidUUID, [⟨1, "alice", [⟨"0f0f", 5, some .beer⟩], some 1, some 0⟩], []) ∧
      DeleteRes.invalidUUID ≠ DeleteRes.notFound := by
  refine ⟨by decide, ?_⟩
  exact c8_invalid_uuid (fun s => s == "0f0f") 1 ("zz")
    [⟨1, "alice", [⟨"0f0f", 5, some .beer⟩], some 1, some 0⟩] (by decide)

/-- C6: deleting by a well-formed event id that is owned (exclusively) by
users other than the caller returns Forbidden and mutates nothing: the
collection afterwards is exactly the collection before, and the only store
access performed is the lookup. -/
theorem c6_delete_forbidden (validUUID : String → Bool) (caller : Nat)
    (u : String) (store : List UserRec)
    (hv : validUUID u = true)
    (hex : ∃ r ∈ store, hasBeer u r = true)
    (hown : ∀ r ∈ store, hasBeer u r = true → r.user_id ≠ caller) :
    beer_delete validUUID caller u store = (.forbidden, store, [.findOne]) := by
  have hsome : (store.find? (hasBeer u)).isSome := by
    rw [List.find?_isSome]
    obtain ⟨r, hr, hb⟩ := hex
    exact ⟨r, hr, hb⟩
  obtain ⟨r, hr⟩ := Option.isSome_iff_exists.mp hsome
  have hmem : r ∈ store := List.mem_of_find?_eq_some hr
  have hb : hasBeer u r = true := List.find?_some hr
  have hne : r.user_id ≠ caller := hown r hmem hb
  simp [beer_delete, hv, hr, hne]

theorem c6_delete_forbidden_witness :
    (fun _ => true) ("e1") = true ∧
      (∃ r ∈ [UserRec.mk 1 ("alice") [⟨"e1", 3, some .beer⟩] (some 1) (some 0),
              UserRec.mk 2 ("bob") [⟨"e2", 4, some .cider⟩] (some 0) (some 1)],
        hasBeer ("e1") r = true) ∧
      beer_delete (fun _ => true) 2 ("e1")
          [UserRec.mk 1 ("alice") [⟨"e1", 3, some .beer⟩] (some 1) (some 0),
           UserRec.mk 2 ("bob") [⟨"e2", 4, some .cider⟩] (some 0) (some 1)] =
        (.forbidden,
          [UserRec.mk 1 ("alice") [⟨"e1", 3, some .beer⟩] (some 1) (some 0),
           UserRec.mk 2 ("bob") [⟨"e2", 4, some .cider⟩] (some 0) (some 1)],
          [.findOne]) := by
  refine ⟨by decide, by decide, ?_⟩
  exact c6_delete_forbidden (fun _ => true) 2 ("e1")
    [UserRec.mk 1 ("alice") [⟨"e1", 3, some .beer⟩] (some 1) (some 0),
     UserRec.mk 2 ("bob") [⟨"e2", 4, some .cider⟩] (some 0) (some 1)]
    (by decide) (by decide) (by decide)

/-- After removing every entry with id `u`, the record no longer matches a
`{"beers.id": u}` lookup. -/
lemma hasBeer_filter_ne (u : String) (es : List DrinkEvent) :
    (es.filter (fun b => b.id != u)).any (fun b => b.id == u) = false := by
  rw [List.any_eq_false]
  intro x hx
  have hne := (List.mem_filter.mp hx).2
  simp only [bne_iff_ne, ne_eq] at hne
  simp [hne]

/-- The modelled `update_one` rewrites exactly the first document whose key matches. -/
lemma updateBeers_append (pre post : List UserRec) (r : UserRec) (uid : Nat)
    (nb : List DrinkEvent) (tb tc : Nat)
    (hpre : ∀ p ∈ pre, p.user_id ≠ uid) (hr : r.user_id = uid) :
    updateBeers (pre ++ r :: post) uid nb tb tc =
      pre ++ { r with beers := nb, total_beers := some tb, total_ciders := some tc } :: post := by
  induction pre with
  | nil => simp [updateBeers, hr]
  | cons p ps ih =>
    have hp : p.user_id ≠ uid := hpre p (by simp)
    simp only [List.cons_append, updateBeers, beq_iff_eq, if_neg hp]
    exact congrArg (fun l => p :: l) (ih (fun q hq => hpre q (by simp [hq])))

/-- C7: if a `beer_delete` succeeds (in a collection with unique user ids in
which the event id occurs in at most one record), then running `beer_delete`
on the same id again returns NotFound and leaves every record unchanged: the
second call returns the collection it was given and performs no update. -/
theorem c7_delete_idempotent (validUUID : String → Bool) (caller caller2 : Nat)
    (u : String) (store s2 : List UserRec) (e : DrinkEvent) (tr : List StoreOp)
    (hnodup : (store.map (fun r => r.user_id)).Nodup)
    (huniq : (store.filter (hasBeer u)).length ≤ 1)
    (h : beer_delete validUUID caller u store = (.deleted e, s2, tr)) :
    beer_delete validUUID caller2 u s2 = (.notFound, s2, [.findOne]) := by
  by_cases hv : validUUID u
  · rcases hfind : store.find? (hasBeer u) with _ | r
    · rw [beer_delete, if_pos hv, hfind] at h
      simp at h
    · rw [beer_delete, if_pos hv, hfind] at h
      dsimp only at h
      by_cases howner : r.user_id ≠ caller
      · rw [if_pos howner] at h
        simp at h
      · rw [if_neg howner] at h
        rcases hfe : r.beers.find? (fun b => b.id == u) with _ | de
        · rw [hfe] at h
          simp at h
        · rw [hfe] at h
          simp only [Prod.mk.injEq] at h
          obtain ⟨hde, hs2, htr⟩ := h
          obtain ⟨hbr, pre, post, hsplit, hpreF⟩ := List.find?_eq_some.mp hfind
          have hpreF2 : ∀ p ∈ pre, hasBeer u p = false := by
            intro p hp
            simpa using hpreF p hp
          have hpreUid : ∀ p ∈ pre, p.user_id ≠ r.user_id := by
            intro p hp heq
            rw [hsplit, List.map_append, List.nodup_append] at hnodup
            exact hnodup.2.2 (List.mem_map_of_mem (fun q => q.user_id) hp)
              (by simp [heq])
          have hpostF : ∀ p ∈ post, hasBeer u p = false := by
            have hfil : store.filter (hasBeer u) =
                pre.filter (hasBeer u) ++ r :: post.filter (hasBeer u) := by
              rw [hsplit, List.filter_append, List.filter_cons, if_pos hbr]
            rw [hfil] at huniq
            have hlen : (post.filter (hasBeer u)).length = 0 := by
              simp only [List.length_append, List.length_cons] at huniq
              omega
            intro p hp
            by_contra hcon
            have hpm : p ∈ post.filter (hasBeer u) :=
              List.mem_filter.mpr ⟨hp, by simpa using hcon⟩
            rw [List.length_eq_zero] at hlen
            simp [hlen] at hpm
          have hs2eq : s2 = pre ++
              { r with beers := r.beers.filter (fun b => b.id != u),
                       total_beers := some (countBeer (r.beers.filter (fun b => b.id != u))),
                       total_ciders := some (countCider (r.beers.filter (fun b => b.id != u))) }
                :: post := by
            rw [← hs2, hsplit]
            exact updateBeers_append pre post r r.user_id _ _ _
              (fun p hp => hpreUid p hp) rfl
          have hnone : s2.find? (hasBeer u) = none := by
            rw [List.find?_eq_none]
            intro x hx
            rw [hs2eq] at hx
            rcases List.mem_append.mp hx with hxp | hxc
            · simp [hpreF2 x hxp]
            · rcases List.mem_cons.mp hxc with hxr | hxq
              · subst hxr
                simp [hasBeer, hasBeer_filter_ne]
              · simp [hpostF x hxq]
          rw [beer_delete, if_pos hv, hnone]
  · rw [beer_delete, if_neg hv] at h
    simp at h

theorem c7_delete_idempotent_witness :
    beer_delete (fun _ => true) 1 ("e1")
        [UserRec.mk 1 ("alice") [⟨"e1", 5, some .beer⟩] (some 1) (some 0)] =
      (.deleted ⟨"e1", 5, some .beer⟩,
        [UserRec.mk 1 ("alice") [] (some 0) (some 0)], [.findOne, .updateOne]) ∧
    beer_delete (fun _ => true) 1 ("e1")
        [UserRec.mk 1 ("alice") [] (some 0) (some 0)] =
      (.notFound, [UserRec.mk 1 ("alice") [] (some 0) (some 0)], [.findOne]) := by
  refine ⟨by decide, ?_⟩
  exact c7_delete_idempotent (fun _ => true) 1 1 ("e1")
    [UserRec.mk 1 ("alice") [⟨"e1", 5, some .beer⟩] (some 1) (some 0)]
    [UserRec.mk 1 ("alice") [] (some 0) (some 0)]
    (DrinkEvent.mk ("e1") 5 (some .beer)) [.findOne, .updateOne]
    (by decide) (by decide) (by decide)

/-- The two type tests of the source are complementary: every event is
counted either as a beer (missing type included) or as a cider. -/
lemma effIsBeer_eq_not_isCider (e : DrinkEvent) : effIsBeer e = !(isCider e) := by
  rcases e with ⟨i, ts, ty⟩
  rcases ty with _ | ty
  · rfl
  · cases ty <;> rfl

/-- The beer count and the cider count always partition the event list. -/
lemma count_split (es : List DrinkEvent) : countBeer es + countCider es = es.length := by
  induction es with
  | nil => rfl
  | cons e es ih =>
    have he := effIsBeer_eq_not_isCider e
    simp only [countBeer, countCider, List.filter_cons] at *
    cases hc : isCider e <;> rw [hc] at he <;> simp [he, hc] <;> omega

lemma countBeer_append_beer (es : List DrinkEvent) (nid : String) (now : Int) :
    countBeer (es ++ [DrinkEvent.mk nid now (some .beer)]) = countBeer es + 1 := by
  simp [countBeer, List.filter_append, List.filter_cons, effIsBeer]

lemma countCider_append_beer (es : List DrinkEvent) (nid : String) (now : Int) :
    countCider (es ++ [DrinkEvent.mk nid now (some .beer)]) = countCider es := by
  simp [countCider, List.filter_append, List.filter_cons, isCider]

lemma countBeer_append_cider (es : List DrinkEvent) (nid : String) (now : Int) :
    countBeer (es ++ [DrinkEvent.mk nid now (some .cider)]) = countBeer es := by
  simp [countBeer, List.filter_append, List.filter_cons, effIsBeer]

lemma countCider_append_cider (es : List DrinkEvent) (nid : String) (now : Int) :
    countCider (es ++ [DrinkEvent.mk nid now (some .cider)]) = countCider es + 1 := by
  simp [countCider, List.filter_append, List.filter_cons, isCider]

/-- The denormalized-totals invariant of a record. -/
def totalsOk (r : UserRec) : Prop :=
  r.total_beers = some (countBeer r.beers) ∧ r.total_ciders = some (countCider r.beers)

lemma mem_replaceOne {x doc : UserRec} {uid : Nat} :
    ∀ {store : List UserRec}, x ∈ replaceOne store uid doc → x = doc ∨ x ∈ store := by
  intro store
  induction store with
  | nil =>
    intro h
    simp only [replaceOne, List.mem_singleton] at h
    exact Or.inl h
  | cons r rs ih =>
    intro h
    by_cases hr : r.user_id == uid
    · rw [replaceOne, if_pos hr] at h
      rcases List.mem_cons.mp h with h1 | h2
      · exact Or.inl h1
      · exact Or.inr (List.mem_cons_of_mem _ h2)
    · rw [replaceOne, if_neg hr] at h
      rcases List.mem_cons.mp h with h1 | h2
      · exact Or.inr (h1 ▸ List.mem_cons_self _ _)
      · rcases ih h2 with h3 | h4
        · exact Or.inl h3
        · exact Or.inr (List.mem_cons_of_mem _ h4)

lemma mem_updateBeers {x : UserRec} {uid : Nat} {nb : List DrinkEvent} {tb tc : Nat} :
    ∀ {store : List UserRec}, x ∈ updateBeers store uid nb tb tc →
      x ∈ store ∨
        ∃ r ∈ store,
          x = { r with beers := nb, total_beers := some tb, total_ciders := some tc } := by
  intro store
  induction store with
  | nil =>
    intro h
    simp [updateBeers] at h
  | cons r rs ih =>
    intro h
    by_cases hr : r.user_id == uid
    · rw [updateBeers, if_pos hr] at h
      rcases List.mem_cons.mp h with h1 | h2
      · exact Or.inr ⟨r, List.mem_cons_self _ _, h1⟩
      · exact Or.inl (List.mem_cons_of_mem _ h2)
    · rw [updateBeers, if_neg hr] at h
      rcases List.mem_cons.mp h with h1 | h2
      · exact Or.inl (h1 ▸ List.mem_cons_self _ _)
      · rcases ih h2 with h3 | ⟨q, hq, hx⟩
        · exact Or.inl (List.mem_cons_of_mem _ h3)
        · exact Or.inr ⟨q, List.mem_cons_of_mem _ hq, hx⟩

/-- Lemma: `logDoc` preserves the totals invariant: the appended event is counted by
exactly the counter that the handler bumps. -/
lemma totalsOk_logDoc (u0 : UserRec) (uname : String) (dt : DrinkType) (now : Int)
    (nid : String) (h0 : totalsOk u0) : totalsOk (logDoc u0 uname dt now nid) := by
  obtain ⟨hb, hc⟩ := h0
  cases dt
  · refine ⟨?_, ?_⟩
    · simp [logDoc, hb, countBeer_append_beer]
    · simp [logDoc, hc, countCider_append_beer]
  · refine ⟨?_, ?_⟩
    · simp [logDoc, hb, countBeer_append_cider]
    · simp [logDoc, hc, countCider_append_cider]

/-- Lemma: `log_beer` preserves the totals invariant on every record of the
collection. -/
lemma totalsOk_log_beer (store : List UserRec) (uid : Nat) (uname : String)
    (dt : DrinkType) (now : Int) (nid : String) (hinv : ∀ r ∈ store, totalsOk r) :
    ∀ r ∈ log_beer store uid uname dt now nid, totalsOk r := by
  intro r hr
  rcases mem_replaceOne hr with rfl | hmem
  · apply totalsOk_logDoc
    rcases hfind : findUser store uid with _ | r0
    · simp [hfind, totalsOk, countBeer, countCider]
    · have hm : r0 ∈ store := List.mem_of_find?_eq_some hfind
      simpa [hfind] using hinv r0 hm
  · exact hinv r hmem

/-- Lemma: `beer_delete` preserves the totals invariant on every record: either the
collection is untouched, or the one rewritten record gets totals recomputed
from its new event list. -/
lemma totalsOk_beer_delete (validUUID : String → Bool) (caller : Nat) (u : String)
    (store : List UserRec) (hinv : ∀ r ∈ store, totalsOk r) :
    ∀ r ∈ (beer_delete validUUID caller u store).2.1, totalsOk r := by
  intro r hr
  by_cases hv : validUUID u
  · rcases hfind : store.find? (hasBeer u) with _ | r0
    · rw [beer_delete, if_pos hv, hfind] at hr
      exact hinv r hr
    · rw [beer_delete, if_pos hv, hfind] at hr
      dsimp only at hr
      by_cases howner : r0.user_id ≠ caller
      · rw [if_pos howner] at hr
        exact hinv r hr
      · rw [if_neg howner] at hr
        rcases hfe : r0.beers.find? (fun b => b.id == u) with _ | de
        · rw [hfe] at hr
          exact hinv r hr
        · rw [hfe] at hr
          dsimp only at hr
          rcases mem_updateBeers hr with hmem | ⟨q, _, hx⟩
          · exact hinv r hmem
          · subst hx
            exact ⟨rfl, rfl⟩
  · rw [beer_delete, if_neg hv] at hr
    exact hinv r hr

/-- One user-visible mutation of the event log: a `/beer` invocation or a
`/beer_delete` invocation. -/
inductive BeerOp
  | log (uid : Nat) (uname : String) (dt : DrinkType) (now : Int) (newId : String)
  | del (caller : Nat) (uuid : String)

/-- Apply one operation to the collection, keeping the resulting collection. -/
def applyOp (validUUID : String → Bool) (store : List UserRec) : BeerOp → List UserRec
  | .log uid uname dt now nid => log_beer store uid uname dt now nid
  | .del caller u => (beer_delete validUUID caller u store).2.1

/-- Run a sequence of operations against an initially empty collection. -/
def runOps (validUUID : String → Bool) (ops : List BeerOp) : List UserRec :=
  ops.foldl (applyOp validUUID) []

lemma totalsOk_foldl (validUUID : String → Bool) (ops : List BeerOp) :
    ∀ store : List UserRec, (∀ r ∈ store, totalsOk r) →
      ∀ r ∈ ops.foldl (applyOp validUUID) store, totalsOk r := by
  induction ops with
  | nil =>
    intro store h
    simpa using h
  | cons op ops ih =>
    intro store h
    rw [List.foldl_cons]
    apply ih
    cases op with
    | log uid uname dt now nid => exact totalsOk_log_beer store uid uname dt now nid h
    | del caller u => exact totalsOk_beer_delete validUUID caller u store h

/-- C1: after every sequence of log / delete operations (each logged type
being beer or cider), every record of the collection carries denormalized
totals that match the actual per-type counts of its event list — the beer
count taking a missing legacy type as beer — and the two counts partition the
event list, so `totalBeer + totalCider` equals the number of events. -/
theorem c1_totals_invariant (validUUID : String → Bool) (ops : List BeerOp)
    (rec : UserRec) (h : rec ∈ runOps validUUID ops) :
    rec.total_beers = some (countBeer rec.beers) ∧
      rec.total_ciders = some (countCider rec.beers) ∧
      countBeer rec.beers + countCider rec.beers = rec.beers.length := by
  have hok := totalsOk_foldl validUUID ops [] (by simp) rec h
  exact ⟨hok.1, hok.2, count_split rec.beers⟩

theorem c1_totals_invariant_witness :
    (UserRec.mk 1 ("alice") [⟨"i2", 20, some .cider⟩] (some 0) (some 1)) ∈
        runOps (fun _ => true)
          [.log 1 ("alice") .beer 10 ("i1"), .log 1 ("alice") .cider 20 ("i2"),
           .del 1 ("i1")] ∧
      (some 0 = some (countBeer [⟨"i2", 20, some .cider⟩]) ∧
        some 1 = some (countCider [⟨"i2", 20, some .cider⟩]) ∧
        countBeer [⟨"i2", 20, some .cider⟩] + countCider [⟨"i2", 20, some .cider⟩] =
          (List.length [DrinkEvent.mk ("i2") 20 (some .cider)])) := by
  refine ⟨by decide, ?_⟩
  exact c1_totals_invariant (fun _ => true)
    [.log 1 ("alice") .beer 10 ("i1"), .log 1 ("alice") .cider 20 ("i2"),
     .del 1 ("i1")]
    (UserRec.mk 1 ("alice") [⟨"i2", 20, some .cider⟩] (some 0) (some 1)) (by decide)

/-- The `drink_type` choice of the list/stats/leaderboard/last commands. -/
inductive DrinkFilter
  | beer
  | cider
  | all
deriving DecidableEq

/-- The type-filter branches shared by `my_beers` (117-124), `beer_stats`
(272-275), `beer_leaderboard` (335-342) and `beer_last` (436-443):
`all` is the identity, `beer` keeps `b.get("type", "beer") == "beer"`,
`cider` keeps `b.get("type") == "cider"`. -/
def filterByType (dt : DrinkFilter) (es : List DrinkEvent) : List DrinkEvent :=
  match dt with
  | .all => es
  | .beer => es.filter effIsBeer
  | .cider => es.filter isCider

/-- Key order of Python's `sorted(..., key=lambda x: x["timestamp"],
reverse=True)`: `a` may precede `b` iff `b`'s timestamp is at most `a`'s. -/
def tsGe (a b : DrinkEvent) : Prop :=
  b.timestamp ≤ a.timestamp

instance : DecidableRel tsGe :=
  fun a b => inferInstanceAs (Decidable (b.timestamp ≤ a.timestamp))

instance : IsTotal DrinkEvent tsGe :=
  ⟨fun a b => Int.le_total b.timestamp a.timestamp⟩

instance : IsTrans DrinkEvent tsGe :=
  ⟨fun _ _ _ h1 h2 => le_trans h2 h1⟩

/-- Translation of `sorted(all_beers, key=lambda x: x["timestamp"], reverse=True)`
(line 127): stable descending sort by timestamp. -/
def sortByNewest (es : List DrinkEvent) : List DrinkEvent :=
  List.insertionSort tsGe es

/-- Outcome of `/my_beers`. -/
inductive MyBeersResult
  | noData
  | pageError (page totalPages : Nat)
  | page (items : List DrinkEvent) (totalPages totalCount : Nat)
deriving DecidableEq

/-- The `/my_beers` command (`my_beers`, lines 102-169): type filter, newest-first sort,
`total_pages = (total + limit - 1) // limit`, page validation, slice
`[start:start+limit]`. -/
def my_beers (udata : Option UserRec) (lim page : Nat) (dt : DrinkFilter) : MyBeersResult :=
  match udata with
  | none => .noData
  | some user_data =>
    if user_data.beers = [] then .noData
    else
      let all_beers := sortByNewest (filterByType dt user_data.beers)
      let total_beers := all_beers.length
      let total_pages := (total_beers + lim - 1) / lim
      if page > total_pages then .pageError page total_pages
      else .page ((all_beers.drop ((page - 1) * lim)).take lim) total_pages total_beers

/-- C4 counterexample: a user whose log holds one cider; listing with the
beer filter, `page=1`, `pageSize=10` is REJECTED with "0 page(s)", not
answered with one empty page — the code has no 1-page minimum. -/
theorem c4_empty_page_counterexample :
    my_beers (some (UserRec.mk 1 ("alice") [⟨"e1", 5, some .cider⟩] (some 0) (some 1)))
        10 1 .beer = .pageError 1 0 := by
  decide

/-- Lemma: `(n + lim - 1) / lim` is exactly ceiling division: the least `k` with
`n ≤ k * lim`. -/
lemma ceil_div_char (n lim k : Nat) (h : 1 ≤ lim) :
    (n + lim - 1) / lim ≤ k ↔ n ≤ k * lim := by
  rw [Nat.div_le_iff_le_mul_add_pred h, Nat.mul_comm lim k]
  omega

/-- C4 amended: for a present, nonempty log, the page count that `my_beers`
reports (in both its success and its rejection message) is
`ceil(filteredCount / pageSize)` with NO one-page minimum, so a log emptied
by the type filter reports 0 pages and every page request — page 1
included — is rejected. -/
theorem c4_pagination_amended (rec : UserRec) (lim page : Nat) (dt : DrinkFilter)
    (hlim : 1 ≤ lim) (hne : rec.beers ≠ []) :
    (∀ k, ((filterByType dt rec.beers).length + lim - 1) / lim ≤ k ↔
        (filterByType dt rec.beers).length ≤ k * lim) ∧
      (my_beers (some rec) lim page dt =
          if page > ((filterByType dt rec.beers).length + lim - 1) / lim then
            .pageError page (((filterByType dt rec.beers).length + lim - 1) / lim)
          else
            .page (((sortByNewest (filterByType dt rec.beers)).drop ((page - 1) * lim)).take lim)
              (((filterByType dt rec.beers).length + lim - 1) / lim)
              (filterByType dt rec.beers).length) ∧
      (filterByType dt rec.beers = [] → 1 ≤ page →
        my_beers (some rec) lim page dt = .pageError page 0) := by
  have hlen : (sortByNewest (filterByType dt rec.beers)).length =
      (filterByType dt rec.beers).length := by
    simp [sortByNewest, List.length_insertionSort]
  refine ⟨fun k => ceil_div_char _ lim k hlim, ?_, ?_⟩
  · rw [my_beers, if_neg hne]
    dsimp only
    rw [hlen]
  · intro hempty hpage
    rw [my_beers, if_neg hne]
    dsimp only
    rw [hlen, hempty]
    simp only [List.length_nil]
    have hz : (0 + lim - 1) / lim = 0 := by
      rw [Nat.div_eq_of_lt]
      omega
    rw [hz]
    rw [if_pos (by omega)]

theorem c4_pagination_amended_witness :
    1 ≤ 10 ∧
      (UserRec.mk 1 ("alice") [⟨"e1", 5, some .cider⟩] (some 0) (some 1)).beers ≠ [] ∧
      my_beers (some (UserRec.mk 1 ("alice") [⟨"e1", 5, some .cider⟩] (some 0) (some 1)))
          10 1 .beer = .pageError 1 0 := by
  refine ⟨by decide, by decide, ?_⟩
  exact (c4_pagination_amended
      (UserRec.mk 1 ("alice") [⟨"e1", 5, some .cider⟩] (some 0) (some 1))
      10 1 .beer (by decide) (by decide)).2.2 (by decide) (by decide)

/-- C9 counterexample: two events with EQUAL timestamps, inserted first `x`
then `y`.  The code's stable descending sort keeps the original insertion
order (`x` before `y`, i.e. the OLDER insertion first), not
"newest-inserted first" as claimed. -/
theorem c9_tie_order_counterexample :
    sortByNewest [⟨"x", 100, some .beer⟩, ⟨"y", 100, some .beer⟩] =
        [⟨"x", 100, some .beer⟩, ⟨"y", 100, some .beer⟩] ∧
      (DrinkEvent.mk ("x") 100 (some .beer)).timestamp =
        (DrinkEvent.mk ("y") 100 (some .beer)).timestamp ∧
      DrinkEvent.mk ("x") 100 (some .beer) ≠ DrinkEvent.mk ("y") 100 (some .beer) := by
  refine ⟨?_, by decide, by decide⟩
  decide

/-- C9 amended: `my_beers` orders events newest-first by timestamp with a
stable sort in which events with equal timestamps keep their ORIGINAL
insertion order (earlier-inserted first): the sorted list is a permutation of
the filtered input, is pairwise newest-first, and every pair already in
newest-first (or tied) order keeps its relative order. -/
theorem c9_sort_amended (es : List DrinkEvent) :
    (sortByNewest es).Pairwise tsGe ∧
      List.Perm (sortByNewest es) es ∧
      (∀ a b : DrinkEvent, List.Sublist [a, b] es → tsGe a b →
        List.Sublist [a, b] (sortByNewest es)) := by
  refine ⟨?_, ?_, ?_⟩
  · exact List.sorted_insertionSort tsGe es
  · exact List.perm_insertionSort tsGe es
  · intro a b hab hr
    exact List.pair_sublist_insertionSort hr hab

theorem c9_sort_amended_witness :
    List.Sublist
        [DrinkEvent.mk ("x") 100 (some .beer), DrinkEvent.mk ("y") 100 (some .beer)]
        [DrinkEvent.mk ("x") 100 (some .beer), DrinkEvent.mk ("y") 100 (some .beer)] ∧
      tsGe (DrinkEvent.mk ("x") 100 (some .beer)) (DrinkEvent.mk ("y") 100 (some .beer)) ∧
      List.Sublist
        [DrinkEvent.mk ("x") 100 (some .beer), DrinkEvent.mk ("y") 100 (some .beer)]
        (sortByNewest
          [DrinkEvent.mk ("x") 100 (some .beer), DrinkEvent.mk ("y") 100 (some .beer)]) := by
  refine ⟨List.Sublist.refl _, by decide, ?_⟩
  exact (c9_sort_amended
      [DrinkEvent.mk ("x") 100 (some .beer), DrinkEvent.mk ("y") 100 (some .beer)]).2.2
    (DrinkEvent.mk ("x") 100 (some .beer)) (DrinkEvent.mk ("y") 100 (some .beer))
    (List.Sublist.refl _) (by decide)

/-- Outcome of `/beer_last`: the handler either reports "no beers yet",
crashes with an IndexError (a `[-1]` on an empty filtered list), or shows
one event. -/
inductive LastResult
  | noData
  | indexError
  | found (e : DrinkEvent)
deriving DecidableEq

/-- The `/beer_last` command (`beer_last`, lines 418-473): after the type filter, the
code takes `[-1]` — the TRAILING element of the stored list — as the "last"
beer (lines 436-443). -/
def beer_last (udata : Option UserRec) (dt : DrinkFilter) : LastResult :=
  match udata with
  | none => .noData
  | some user_data =>
    if user_data.beers = [] then .noData
    else
      match (filterByType dt user_data.beers).getLast? with
      | none => .indexError
      | some e => .found e

/-- C2: the code does NOT take the maximum timestamp.  On a log stored in
the order `ts 10, ts 11, ts 9`, `beer_last` returns the trailing `ts 9`
event even though a `ts 11` event is present; and on a log whose type filter
leaves nothing it raises an IndexError instead of reporting an absent
value. -/
theorem c2_last_takes_trailing :
    beer_last
        (some (UserRec.mk 1 ("alice")
          [⟨"a", 10, some .beer⟩, ⟨"b", 11, some .beer⟩, ⟨"c", 9, some .beer⟩]
          (some 3) (some 0)))
        .all = .found ⟨"c", 9, some .beer⟩ ∧
      (DrinkEvent.mk ("b") 11 (some .beer)) ∈
        [DrinkEvent.mk ("a") 10 (some .beer), DrinkEvent.mk ("b") 11 (some .beer),
         DrinkEvent.mk ("c") 9 (some .beer)] ∧
      (DrinkEvent.mk ("c") 9 (some .beer)).timestamp <
        (DrinkEvent.mk ("b") 11 (some .beer)).timestamp ∧
      beer_last
        (some (UserRec.mk 2 ("bob") [⟨"d", 5, some .cider⟩] (some 0) (some 1)))
        .beer = .indexError := by
  refine ⟨by decide, by decide, by decide, by decide⟩

/-- The period choice of the stats / leaderboard commands. -/
inductive Period
  | day
  | week
  | month
  | year
deriving DecidableEq

/-- Cutoffs of `beer_stats` (lines 279-286): `timedelta(days=1)`,
`timedelta(weeks=1)`, `timedelta(days=30)`, `timedelta(days=365)` before
`now`, in seconds. -/
def statsCutoff (now : Int) : Period → Int
  | .day => now - 86400
  | .week => now - 604800
  | .month => now - 2592000
  | .year => now - 31536000

/-- Translation of `now.replace(hour=0, minute=0, second=0, microsecond=0)` (line 348):
midnight of the current display-timezone day. -/
def startOfDay (now : Int) : Int :=
  now - now % 86400

/-- Cutoffs of `beer_leaderboard` (lines 345-354): the DAY cutoff is the
start of today, the others match `beer_stats`. -/
def lbCutoff (now : Int) : Period → Int
  | .day => startOfDay now
  | .week => now - 604800
  | .month => now - 2592000
  | .year => now - 31536000

/-- Translation of `[b for b in beers if ts_to_prague_time(b["timestamp"]) >= cutoff]`
(lines 288-290 and 356-358). -/
def filterByPeriod (cutoff : Int) (es : List DrinkEvent) : List DrinkEvent :=
  es.filter (fun b => cutoff ≤ b.timestamp)

/-- The `/beer_stats` command (`beer_stats`, lines 251-305): `none` models the
"hasn't drunk any beers yet" early return, `some n` the reported count. -/
def beer_stats (udata : Option UserRec) (period : Option Period) (dt : DrinkFilter)
    (now : Int) : Option Nat :=
  match udata with
  | none => none
  | some user_data =>
    if user_data.beers = [] then none
    else
      let beers := filterByType dt user_data.beers
      match period with
      | some p => some (filterByPeriod (statsCutoff now p) beers).length
      | none =>
        match dt with
        | .all => some (user_data.total_beers.getD 0 + user_data.total_ciders.getD 0)
        | .beer => some (user_data.total_beers.getD 0)
        | .cider => some (user_data.total_ciders.getD 0)

/-- The cutoffs the claim states: `Day` = now minus 24 hours, `Week` = now
minus 7 days, `Month` = now minus 30 days, `Year` = now minus 365 days. -/
def claimCutoff (now : Int) : Period → Int
  | .day => now - 24 * 60 * 60
  | .week => now - 7 * 24 * 60 * 60
  | .month => now - 30 * 24 * 60 * 60
  | .year => now - 365 * 24 * 60 * 60

/-- C3 counterexample: at `now = 129600` (noon of day two), an event at
`ts = 50000` satisfies `ts ≥ now - 24h = 43200`, and the per-user stats day
window keeps it (count 1), but the leaderboard day window starts at midnight
`86400` and drops it (count 0): the two computations do not share the Day
cutoff, and the leaderboard's is not `now` minus 24 hours. -/
theorem c3_day_cutoff_counterexample :
    claimCutoff 129600 .day ≤ (50000 : Int) ∧
      beer_stats
          (some (UserRec.mk 1 ("alice") [⟨"a", 50000, some .beer⟩] (some 1) (some 0)))
          (some .day) .all 129600 = some 1 ∧
      filterByPeriod (lbCutoff 129600 .day) [⟨"a", 50000, some .beer⟩] = [] ∧
      lbCutoff 129600 .day ≠ claimCutoff 129600 .day := by
  refine ⟨by decide, by decide, by decide, by decide⟩

/-- C3 amended: the per-user stats window uses exactly the claimed rolling
cutoffs (Day = now−24h, Week = now−7d, Month = now−30d, Year = now−365d) and
keeps exactly the events with timestamp ≥ cutoff; the leaderboard agrees for
Week/Month/Year but computes the Day cutoff as the START OF THE CURRENT DAY
(midnight in the display timezone), not now−24h. -/
theorem c3_cutoffs_amended (now : Int) (p : Period) (es : List DrinkEvent) :
    filterByPeriod (statsCutoff now p) es =
        es.filter (fun e => claimCutoff now p ≤ e.timestamp) ∧
      filterByPeriod (lbCutoff now p) es =
        es.filter (fun e =>
          (match p with
            | .day => startOfDay now
            | _ => claimCutoff now p) ≤ e.timestamp) := by
  cases p <;>
    refine ⟨?_, ?_⟩ <;>
      simp [filterByPeriod, statsCutoff, lbCutoff, claimCutoff]

/-- One leaderboard tuple `(username, total_count, user_id, total_beers,
total_ciders)` (lines 371-379). -/
structure LBEntry where
  username : String
  count : Nat
  user_id : Nat
  total_beers : Nat
  total_ciders : Nat
deriving DecidableEq

/-- Key order of `leaderboard.sort(key=lambda x: x[1], reverse=True)`
(line 382). -/
def countGe (a b : LBEntry) : Prop :=
  b.count ≤ a.count

instance : DecidableRel countGe :=
  fun a b => inferInstanceAs (Decidable (b.count ≤ a.count))

instance : IsTotal LBEntry countGe :=
  ⟨fun a b => Nat.le_total b.count a.count⟩

instance : IsTrans LBEntry countGe :=
  ⟨fun _ _ _ h1 h2 => le_trans h2 h1⟩

/-- Per-user count of the leaderboard (lines 335-368): type filter, then
either the period window count or the denormalized totals read with
`.get(..., 0)`. -/
def lbCount (r : UserRec) (period : Option Period) (dt : DrinkFilter) (now : Int) : Nat :=
  let beers := filterByType dt r.beers
  match period with
  | some p => (filterByPeriod (lbCutoff now p) beers).length
  | none =>
    match dt with
    | .all => r.total_beers.getD 0 + r.total_ciders.getD 0
    | .beer => r.total_beers.getD 0
    | .cider => r.total_ciders.getD 0

/-- The leaderboard accumulation loop (lines 330-379) in scan order.
`none` models the `KeyError` crash of `user_data["total_beers"]` /
`user_data["total_ciders"]` on a record that lacks the field (the tuple at
lines 373-377 reads both without a default, but only for records whose
count was positive). -/
def lbEntries (period : Option Period) (dt : DrinkFilter) (now : Int) :
    List UserRec → Option (List LBEntry)
  | [] => some []
  | r :: rs =>
    if r.beers = [] then lbEntries period dt now rs
    else
      if 0 < lbCount r period dt now then
        match r.total_beers, r.total_ciders with
        | some tb, some tc =>
          (lbEntries period dt now rs).map
            (fun es => LBEntry.mk r.username (lbCount r period dt now) r.user_id tb tc :: es)
        | _, _ => none
      else lbEntries period dt now rs

/-- The `/beer_leaderboard` command (`beer_leaderboard`, lines 315-409): accumulate,
stable-sort descending by count, truncate to `limit`. -/
def beer_leaderboard (store : List UserRec) (period : Option Period) (lim : Nat)
    (dt : DrinkFilter) (now : Int) : Option (List LBEntry) :=
  (lbEntries period dt now store).map
    (fun leaderboard => (List.insertionSort countGe leaderboard).take lim)

lemma lbEntries_pos (period : Option Period) (dt : DrinkFilter) (now : Int) :
    ∀ (store : List UserRec) (entries : List LBEntry),
      lbEntries period dt now store = some entries → ∀ e ∈ entries, 0 < e.count := by
  intro store
  induction store with
  | nil =>
    intro entries h e he
    simp only [lbEntries, Option.some.injEq] at h
    subst h
    simp at he
  | cons r rs ih =>
    intro entries h e he
    rw [lbEntries] at h
    by_cases hb : r.beers = []
    · rw [if_pos hb] at h
      exact ih entries h e he
    · rw [if_neg hb] at h
      by_cases hc : 0 < lbCount r period dt now
      · rw [if_pos hc] at h
        rcases htb : r.total_beers with _ | tb <;> rcases htc : r.total_ciders with _ | tc <;>
          rw [htb, htc] at h <;> try simp at h
        rcases hrs : lbEntries period dt now rs with _ | es
        · rw [hrs] at h
          simp at h
        · rw [hrs] at h
          simp only [Option.map_some, Option.some.injEq] at h
          obtain ⟨a, rfl, rfl⟩ := h
          rcases List.mem_cons.mp he with rfl | hmem
          · exact hc
          · exact ih es hrs e hmem
      · rw [if_neg hc] at h
        exact ih entries h e he

lemma lbEntries_all_totals (now : Int) :
    ∀ (store : List UserRec) (entries : List LBEntry),
      lbEntries none .all now store = some entries →
        ∀ e ∈ entries, e.count = e.total_beers + e.total_ciders := by
  intro store
  induction store with
  | nil =>
    intro entries h e he
    simp only [lbEntries, Option.some.injEq] at h
    subst h
    simp at he
  | cons r rs ih =>
    intro entries h e he
    rw [lbEntries] at h
    by_cases hb : r.beers = []
    · rw [if_pos hb] at h
      exact ih entries h e he
    · rw [if_neg hb] at h
      by_cases hc : 0 < lbCount r none .all now
      · rw [if_pos hc] at h
        rcases htb : r.total_beers with _ | tb <;> rcases htc : r.total_ciders with _ | tc <;>
          rw [htb, htc] at h <;> try simp at h
        rcases hrs : lbEntries none .all now rs with _ | es
        · rw [hrs] at h
          simp at h
        · rw [hrs] at h
          simp only [Option.map_some, Option.some.injEq] at h
          obtain ⟨a, rfl, rfl⟩ := h
          rcases List.mem_cons.mp he with rfl | hmem
          · simp only [lbCount, htb, htc, Option.getD_some]
          · exact ih es hrs e hmem
      · rw [if_neg hc] at h
        exact ih entries h e he

/-- C5: whenever the leaderboard computation completes with ranking `l`, the
ranking (a) has at most `limit` entries, (b) is sorted descending by count,
(c) contains only users with positive count, (d) with type `all` and no
period ranks each user by `totalBeer + totalCider`, and (e) is exactly the
`limit`-truncation of a STABLE descending sort of the scan-order entry list:
any two entries already in descending (or tied) count order keep their
relative scan order. -/
theorem c5_leaderboard_rank (store : List UserRec) (period : Option Period)
    (lim : Nat) (dt : DrinkFilter) (now : Int) (l : List LBEntry)
    (h : beer_leaderboard store period lim dt now = some l) :
    l.length ≤ lim ∧
      l.Pairwise countGe ∧
      (∀ e ∈ l, 0 < e.count) ∧
      (period = none → dt = .all →
        ∀ e ∈ l, e.count = e.total_beers + e.total_ciders) ∧
      (∃ entries, lbEntries period dt now store = some entries ∧
        l = (List.insertionSort countGe entries).take lim ∧
        (∀ a b : LBEntry, List.Sublist [a, b] entries → countGe a b →
          List.Sublist [a, b] (List.insertionSort countGe entries))) := by
  rw [beer_leaderboard] at h
  obtain ⟨entries, hent, hl⟩ := Option.map_eq_some'.mp h
  subst hl
  have hsorted : (List.insertionSort countGe entries).Pairwise countGe :=
    List.sorted_insertionSort countGe entries
  have hsub : List.Sublist ((List.insertionSort countGe entries).take lim)
      (List.insertionSort countGe entries) :=
    List.take_sublist lim _
  have hmemsub : ∀ e ∈ (List.insertionSort countGe entries).take lim, e ∈ entries := by
    intro e he
    exact (List.mem_insertionSort countGe).mp (hsub.subset he)
  refine ⟨?_, ?_, ?_, ?_, entries, hent, rfl, ?_⟩
  · exact List.length_take_le lim _
  · exact List.Pairwise.sublist hsub hsorted
  · intro e he
    exact lbEntries_pos period dt now store entries hent e (hmemsub e he)
  · intro hp hdt e he
    subst hp
    subst hdt
    exact lbEntries_all_totals now store entries hent e (hmemsub e he)
  · intro a b hab hr
    exact List.pair_sublist_insertionSort hr hab

theorem c5_leaderboard_rank_witness :
    beer_leaderboard
        [UserRec.mk 1 ("alice")
          [⟨"a1", 1, some .beer⟩, ⟨"a2", 2, some .beer⟩, ⟨"a3", 3, some .beer⟩,
           ⟨"a4", 4, some .beer⟩, ⟨"a5", 5, some .beer⟩] (some 5) (some 0),
         UserRec.mk 2 ("bob")
          [⟨"b1", 1, some .beer⟩, ⟨"b2", 2, some .beer⟩, ⟨"b3", 3, some .beer⟩,
           ⟨"b4", 4, some .beer⟩, ⟨"b5", 5, some .beer⟩] (some 5) (some 0),
         UserRec.mk 3 ("carol")
          [⟨"c1", 1, some .beer⟩, ⟨"c2", 2, some .beer⟩, ⟨"c3", 3, some .beer⟩]
          (some 3) (some 0)]
        none 2 .all 0 =
      some [LBEntry.mk ("alice") 5 1 5 0, LBEntry.mk ("bob") 5 2 5 0] ∧
      [LBEntry.mk ("alice") 5 1 5 0, LBEntry.mk ("bob") 5 2 5 0].length ≤ 2 ∧
      [LBEntry.mk ("alice") 5 1 5 0, LBEntry.mk ("bob") 5 2 5 0].Pairwise countGe := by
  refine ⟨by decide, by decide, ?_⟩
  exact (c5_leaderboard_rank
      [UserRec.mk 1 ("alice")
        [⟨"a1", 1, some .beer⟩, ⟨"a2", 2, some .beer⟩, ⟨"a3", 3, some .beer⟩,
         ⟨"a4", 4, some .beer⟩, ⟨"a5", 5, some .beer⟩] (some 5) (some 0),
       UserRec.mk 2 ("bob")
        [⟨"b1", 1, some .beer⟩, ⟨"b2", 2, some .beer⟩, ⟨"b3", 3, some .beer⟩,
         ⟨"b4", 4, some .beer⟩, ⟨"b5", 5, some .beer⟩] (some 5) (some 0),
       UserRec.mk 3 ("carol")
        [⟨"c1", 1, some .beer⟩, ⟨"c2", 2, some .beer⟩, ⟨"c3", 3, some .beer⟩]
        (some 3) (some 0)]
      none 2 .all 0
      [LBEntry.mk ("alice") 5 1 5 0, LBEntry.mk ("bob") 5 2 5 0]
      (by decide)).2.1

lemma lbEntries_none_iff (period : Option Period) (dt : DrinkFilter) (now : Int) :
    ∀ store : List UserRec,
      (lbEntries period dt now store = none ↔
        ∃ r ∈ store, r.beers ≠ [] ∧ 0 < lbCount r period dt now ∧
          (r.total_beers = none ∨ r.total_ciders = none)) := by
  intro store
  induction store with
  | nil => simp [lbEntries]
  | cons r rs ih =>
    rw [lbEntries]
    by_cases hb : r.beers = []
    · rw [if_pos hb, ih]
      constructor
      · rintro ⟨q, hq, hx⟩
        exact ⟨q, List.mem_cons_of_mem _ hq, hx⟩
      · rintro ⟨q, hq, hx⟩
        rcases List.mem_cons.mp hq with rfl | hq2
        · exact absurd hb hx.1
        · exact ⟨q, hq2, hx⟩
    · rw [if_neg hb]
      by_cases hc : 0 < lbCount r period dt now
      · rw [if_pos hc]
        rcases htb : r.total_beers with _ | tb
        · exact ⟨fun _ => ⟨r, List.mem_cons_self _ _, hb, hc, Or.inl htb⟩, fun _ => rfl⟩
        · rcases htc : r.total_ciders with _ | tc
          · exact ⟨fun _ => ⟨r, List.mem_cons_self _ _, hb, hc, Or.inr htc⟩, fun _ => rfl⟩
          · simp only [Option.map_eq_none']
            rw [ih]
            constructor
            · rintro ⟨q, hq, hx⟩
              exact ⟨q, List.mem_cons_of_mem _ hq, hx⟩
            · rintro ⟨q, hq, hx⟩
              rcases List.mem_cons.mp hq with rfl | hq2
              · rcases hx.2.2 with h1 | h1
                · rw [htb] at h1
                  exact absurd h1 (by simp)
                · rw [htc] at h1
                  exact absurd h1 (by simp)
              · exact ⟨q, hq2, hx⟩
      · rw [if_neg hc, ih]
        constructor
        · rintro ⟨q, hq, hx⟩
          exact ⟨q, List.mem_cons_of_mem _ hq, hx⟩
        · rintro ⟨q, hq, hx⟩
          rcases List.mem_cons.mp hq with rfl | hq2
          · exact absurd hx.2.1 hc
          · exact ⟨q, hq2, hx⟩

/-- C10 counterexample: a record with a nonempty event list that LACKS the
`total_beers` field, queried with the beer filter and no period: its count
defaults to 0, the record is dropped before the field reads, and the
leaderboard SUCCEEDS with an empty ranking — so a legacy record lacking a
counter does not always make the operation fail. -/
theorem c10_missing_field_counterexample :
    (UserRec.mk 7 ("dora") [⟨"d1", 1, some .cider⟩] none (some 1)).total_beers = none ∧
      (UserRec.mk 7 ("dora") [⟨"d1", 1, some .cider⟩] none (some 1)).beers ≠ [] ∧
      beer_leaderboard [UserRec.mk 7 ("dora") [⟨"d1", 1, some .cider⟩] none (some 1)]
        none 10 .beer 0 = some [] := by
  refine ⟨by decide, by decide, by decide⟩

/-- C10 amended: the leaderboard fails exactly when some record has a
nonempty event list, a POSITIVE filtered count, and lacks `total_beers` or
`total_ciders` (the entry tuple reads both without a default, but only for
records whose count is positive; the count itself defaults a missing counter
to 0).  In particular it is total on collections where every record with a
nonempty event list carries both counters. -/
theorem c10_totality_amended (store : List UserRec) (period : Option Period)
    (lim : Nat) (dt : DrinkFilter) (now : Int) :
    beer_leaderboard store period lim dt now = none ↔
      ∃ r ∈ store, r.beers ≠ [] ∧ 0 < lbCount r period dt now ∧
        (r.total_beers = none ∨ r.total_ciders = none) := by
  rw [beer_leaderboard, Option.map_eq_none']
  exact lbEntries_none_iff period dt now store

theorem c10_totality_amended_witness :
    beer_leaderboard [UserRec.mk 8 ("ed") [⟨"e1", 1, some .beer⟩] none (some 2)]
        none 10 .all 0 = none := by
  exact (c10_totality_amended
      [UserRec.mk 8 ("ed") [⟨"e1", 1, some .beer⟩] none (some 2)]
      none 10 .all 0).mpr
    ⟨UserRec.mk 8 ("ed") [⟨"e1", 1, some .beer⟩] none (some 2), by decide⟩
